import Mathlib

/-!
Verification of the machine-deployment orchestrator
(internal/command/deploy/machines.go).

The Go code is shallowly embedded as pure Lean functions.  Remote
control-plane calls (flaps client) are modelled by an explicit
environment of response functions, and every function returns, next to
its result, the list of API calls it issued (the effect trace).  Go
time.Time values are Int nanoseconds since the epoch (the Go zero time
is 0); time.Duration values are Int nanoseconds.  The unbounded polling
loops of the source are given a fuel parameter that models the context
timeout: running out of fuel yields the DeadlineExceeded error that the
expiring context would produce.  Goroutine fan-out in AcquireLeases and
ReleaseLeases acts on disjoint per-machine state, so it is embedded as
a sequential map over the members.  Go maps are embedded as association
lists with lookup semantics; map iteration only ever inserts pairwise
distinct keys here, so the list order is immaterial.

The api package of the repository is not part of the sources; the few
constants and api.Machine helpers that the deploy code consumes are
modelled from the spec and marked as such.
-/

/-- Go error values: context sentinels, plain message errors, and
wrapped errors as produced by the Go format verb that wraps an inner
error. -/
inductive GoErr where
  | canceled : GoErr
  | deadlineExceeded : GoErr
  | msg : String → GoErr
  | wrap : String → GoErr → GoErr
deriving DecidableEq, Repr

deriving instance DecidableEq for Except

/-- The Go errors.Is test: equality to the target, looking through
wrapping. -/
def GoErr.is : GoErr → GoErr → Bool
  | .wrap s inner, target => (GoErr.wrap s inner == target) || inner.is target
  | e, target => e == target

/-- Configuration of one jpillora backoff.Backoff value as constructed
by the source; the random jittered durations themselves are not
modelled, only which configuration governs each sleep. -/
structure BackoffCfg where
  min : Int
  max : Int
  factor : Int
  jitter : Bool
deriving DecidableEq, Repr

def nsPerMillisecond : Int := 1000000
def nsPerSecond : Int := 1000000000

/-- Modelled from the spec: the api package machine state constant for
the started state. -/
def MachineStateStarted : String := "started"

/-- Modelled from the spec: the api package machine state constant for
the stopped state. -/
def MachineStateStopped : String := "stopped"

/-- Modelled from the spec: the api package process group name for app
machines (glossary: process groups are named app, worker,
release_command). -/
def MachineProcessGroupApp : String := "app"

/-- Modelled from the spec: the api package process group name for the
dedicated release-command machine. -/
def MachineProcessGroupReleaseCommand : String := "release_command"

/-- Modelled from the spec: the api package restart policy that forces
a one-shot machine to never restart. -/
def MachineRestartPolicyNo : String := "no"

/-- Modelled from the spec: metadata key for the platform version. -/
def MachineConfigMetadataKeyFlyPlatformVersion : String := "fly_platform_version"

/-- Modelled from the spec: metadata key for the release id. -/
def MachineConfigMetadataKeyFlyReleaseId : String := "fly_release_id"

/-- Modelled from the spec: metadata key for the release version. -/
def MachineConfigMetadataKeyFlyReleaseVersion : String := "fly_release_version"

/-- Modelled from the spec: metadata key for the process group. -/
def MachineConfigMetadataKeyProcessGroup : String := "fly_process_group"

/-- Modelled from the spec: metadata key for the managed-postgres
flag. -/
def MachineConfigMetadataKeyFlyManagedPostgres : String := "fly-managed-postgres"

/-- Modelled from the spec: the platform version value written into
fresh metadata. -/
def MachineFlyPlatformVersion2 : String := "v2"

/-- Association-list lookup, embedding a Go map read. -/
def lookupA (l : List (String × String)) (k : String) : Option String :=
  match l.find? (fun kv => kv.1 = k) with
  | some kv => some kv.2
  | none => none

/-- Association-list insert-or-replace, embedding a Go map write. -/
def insertA (l : List (String × String)) (k v : String) : List (String × String) :=
  if (l.find? (fun kv => kv.1 = k)).isSome then
    l.map (fun kv => if kv.1 = k then (k, v) else kv)
  else l ++ [(k, v)]

/-- One machine event; the request payload is reduced to the optional
exit code that the deploy code extracts from exit events. -/
structure MachineEvent where
  eventType : String
  timestamp : Int
  exitCode : Option Int
deriving DecidableEq, Repr

/-- One configured machine check; only the interval is consumed by the
deploy code. -/
structure MachineCheck where
  interval : Int
deriving DecidableEq, Repr

structure MachineRestart where
  policy : String
deriving DecidableEq, Repr

structure MachineMount where
  volume : String
  path : String
  name : String
deriving DecidableEq, Repr

/-- The machine configuration record, with the fields the deploy code
reads or writes.  Nilable Go slices and maps that the code tests
against nil (checks, services) are Options; init command, mounts,
metadata and env are never nil-tested on a write path that matters
here and are plain lists. -/
structure MachineConfig where
  image : String
  initCmd : List String
  checks : Option (List (String × MachineCheck))
  services : Option (List String)
  restart : MachineRestart
  env : List (String × String)
  mounts : List MachineMount
  metadata : List (String × String)
  guest : Option String
  metrics : Option String
deriving DecidableEq, Repr

def emptyMachineConfig : MachineConfig :=
  { image := "", initCmd := [], checks := none, services := none,
    restart := { policy := "" }, env := [], mounts := [], metadata := [],
    guest := none, metrics := none }

/-- Modelled from the spec: the api.Machine VM handle (the api package
is not under the sources).  checkStatuses carries the per-check status
strings that HealthCheckStatus aggregates. -/
structure Machine where
  id : String
  region : String
  state : String
  config : MachineConfig
  events : List MachineEvent
  checkStatuses : List String
deriving DecidableEq, Repr

/-- Modelled from the spec: HealthCheckStatus().AllPassing() holds when
every check of the fetched machine reports passing. -/
def Machine.healthAllPassing (m : Machine) : Bool :=
  m.checkStatuses.all (fun s => s = "passing")

/-- Modelled from the spec: GetLatestEventOfTypeAfterType returns the
latest event of the first type occurring after the most recent event of
the second type (events are ordered oldest first). -/
def Machine.GetLatestEventOfTypeAfterType (m : Machine) (t1 t2 : String) :
    Option MachineEvent :=
  let afterLast2 := (m.events.reverse.takeWhile (fun ev => ev.eventType ≠ t2)).reverse
  (afterLast2.filter (fun ev => ev.eventType = t1)).getLast?

/-- Modelled from the spec: extracting the exit code of a one-shot run
from the exit event request payload. -/
def MachineEvent.GetExitCode (ev : MachineEvent) : Except GoErr Int :=
  match ev.exitCode with
  | some c => .ok c
  | none => .error (.msg "error no exit code in event")

structure MachineLeaseData where
  nonce : String
  expiresAt : Int
deriving DecidableEq, Repr

structure MachineLease where
  status : String
  code : String
  message : String
  data : Option MachineLeaseData
deriving DecidableEq, Repr

structure LaunchMachineInput where
  id : String
  appId : String
  orgSlug : String
  config : MachineConfig
  region : String
deriving DecidableEq, Repr

/-- A leasable machine: the VM snapshot plus the locally tracked lease
state.  The Go zero time of leaseExpiration is 0. -/
structure LeasableMachine where
  machine : Machine
  leaseNonce : String
  leaseExpiration : Int
deriving DecidableEq, Repr

/-- One issued control-plane API call. -/
inductive Eff where
  | updateCall : String → String → Eff
  | launchCall : LaunchMachineInput → Eff
  | acquireLeaseCall : String → Int → Eff
  | releaseLeaseCall : String → String → Eff
  | getCall : String → Eff
  | waitCall : String → String → Eff
  | sleep : BackoffCfg → Nat → Eff
deriving DecidableEq, Repr

/-- The machine the effect addresses, when it addresses one. -/
def Eff.machineId : Eff → Option String
  | .updateCall mid _ => some mid
  | .launchCall _ => none
  | .acquireLeaseCall mid _ => some mid
  | .releaseLeaseCall mid _ => some mid
  | .getCall mid => some mid
  | .waitCall mid _ => some mid
  | .sleep _ _ => none

/-- The remote control plane and clock: response functions for each
flaps capability.  Polling responses are indexed by the attempt number
of the polling loop issuing them. -/
structure Env where
  now : Int
  fuel : Nat
  acquireLease : String → Int → Except GoErr MachineLease
  releaseLease : String → String → Except GoErr Unit
  update : String → String → LaunchMachineInput → Except GoErr Machine
  launch : LaunchMachineInput → Except GoErr Machine
  waitApi : String → String → Nat → Except GoErr Unit
  get : String → Nat → Except GoErr Machine

/-- Outcome of a composite deployment operation: success, a returned Go
error, or a Go runtime panic (nil-pointer dereference). -/
inductive RunResult (α : Type) where
  | ok : α → RunResult α
  | err : GoErr → RunResult α
  | panicked : RunResult α
deriving DecidableEq, Repr

def isErr {α : Type} : Except GoErr α → Bool
  | .error _ => true
  | .ok _ => false

/-- HasLease: a lease is held iff the nonce is nonempty and the tracked
expiration is in the future. -/
def HasLease (now : Int) (lm : LeasableMachine) : Bool :=
  lm.leaseNonce != "" && decide (now < lm.leaseExpiration)

def resetLease (lm : LeasableMachine) : LeasableMachine :=
  { lm with leaseNonce := "", leaseExpiration := 0 }

/-- leasableMachine.AcquireLease: no-op when a non-expired lease is
already held, otherwise one API acquire whose successful response
records nonce and expiry (the response expiry, in unix seconds, is
authoritative). -/
def LeasableMachine.AcquireLease (env : Env) (duration : Int)
    (lm : LeasableMachine) : LeasableMachine × Except GoErr Unit × List Eff :=
  if HasLease env.now lm then (lm, .ok (), [])
  else
    let seconds := duration / nsPerSecond
    match env.acquireLease lm.machine.id seconds with
    | .error e => (lm, .error e, [.acquireLeaseCall lm.machine.id seconds])
    | .ok lease =>
      if lease.status ≠ "success" then
        (lm, .error (.msg ("did not acquire lease for machine " ++ lm.machine.id)),
          [.acquireLeaseCall lm.machine.id seconds])
      else
        match lease.data with
        | none =>
          (lm, .error (.msg ("missing data from lease response for machine " ++ lm.machine.id)),
            [.acquireLeaseCall lm.machine.id seconds])
        | some d =>
          ({ lm with leaseNonce := d.nonce, leaseExpiration := d.expiresAt * nsPerSecond },
            .ok (), [.acquireLeaseCall lm.machine.id seconds])

/-- leasableMachine.ReleaseLease: clears local lease state on every
path; calls the release API only when a lease is held and its tracked
expiry is not more than 5 seconds in the past; an API failure is
returned after the local state is cleared. -/
def LeasableMachine.ReleaseLease (env : Env) (lm : LeasableMachine) :
    LeasableMachine × Except GoErr Unit × List Eff :=
  if ¬ HasLease env.now lm then (resetLease lm, .ok (), [])
  else if env.now - lm.leaseExpiration > 5 * nsPerSecond then (resetLease lm, .ok (), [])
  else
    match env.releaseLease lm.machine.id lm.leaseNonce with
    | .error e => (resetLease lm, .error e, [.releaseLeaseCall lm.machine.id lm.leaseNonce])
    | .ok _ => (resetLease lm, .ok (), [.releaseLeaseCall lm.machine.id lm.leaseNonce])

/-- leasableMachine.Update: precondition error without any API call
when no lease is held; otherwise one API update carrying the current
lease nonce, whose successful response replaces the local snapshot. -/
def LeasableMachine.Update (env : Env) (lm : LeasableMachine)
    (input : LaunchMachineInput) : LeasableMachine × Except GoErr Unit × List Eff :=
  if ¬ HasLease env.now lm then
    (lm, .error (.msg ("no current lease for machine " ++ lm.machine.id)), [])
  else
    match env.update lm.machine.id lm.leaseNonce input with
    | .error e => (lm, .error e, [.updateCall lm.machine.id lm.leaseNonce])
    | .ok m => ({ lm with machine := m }, .ok (), [.updateCall lm.machine.id lm.leaseNonce])

/-- machineSet.ReleaseLeases: release every member (the goroutine
fan-out acts on disjoint state and is embedded as a map); member
errors attributable to an already-canceled caller context are not
counted as failures. -/
def ReleaseLeases (env : Env) (contextWasAlreadyCanceled : Bool)
    (machines : List LeasableMachine) :
    List LeasableMachine × Except GoErr Unit × List Eff :=
  let results := machines.map (fun m => m.ReleaseLease env)
  let released := results.map (fun r => r.1)
  let effs := results.foldr (fun r acc => r.2.2 ++ acc) []
  let hadError := results.any (fun r =>
    match r.2.1 with
    | .error e => !(contextWasAlreadyCanceled && (e.is .deadlineExceeded || e.is .canceled))
    | .ok _ => false)
  if hadError then (released, .error (.msg "error releasing leases on machines"), effs)
  else (released, .ok (), effs)

/-- machineSet.AcquireLeases: acquire on every member; if any member
fails, ReleaseLeases is invoked on all members as cleanup and a fleet
lease error is returned. -/
def AcquireLeases (env : Env) (duration : Int) (machines : List LeasableMachine) :
    List LeasableMachine × Except GoErr Unit × List Eff :=
  let results := machines.map (fun m => m.AcquireLease env duration)
  let acquired := results.map (fun r => r.1)
  let effs := results.foldr (fun r acc => r.2.2 ++ acc) []
  let hadError := results.any (fun r => isErr r.2.1)
  if hadError then
    let rel := ReleaseLeases env false acquired
    (rel.1, .error (.msg "error acquiring leases on all machines"), effs ++ rel.2.2)
  else (acquired, .ok (), effs)

/-- Backoff configuration of WaitForState and WaitForEventTypeAfterType:
500ms to 2s, factor 2, jittered. -/
def waitStateBackoff : BackoffCfg :=
  { min := 500 * nsPerMillisecond, max := 2 * nsPerSecond, factor := 2, jitter := true }

/-- The shortest configured check interval, starting from the 120s
default exactly as the source computes it. -/
def shortestCheckInterval (checks : List (String × MachineCheck)) : Int :=
  checks.foldl (fun acc c => if c.2.interval < acc then c.2.interval else acc)
    (120 * nsPerSecond)

/-- Backoff configuration derived from the shortest check interval:
half of it up to twice it, factor 2, jittered. -/
def healthcheckBackoff (shortestInterval : Int) : BackoffCfg :=
  { min := shortestInterval / 2, max := 2 * shortestInterval, factor := 2, jitter := true }

/-- The polling loop of WaitForState: a context-canceled result is
returned as is, a deadline result is wrapped, any other error sleeps
with backoff and retries, success returns.  Fuel models the context
timeout. -/
def waitLoop (waitT : Nat → Except GoErr Unit) (cfg : BackoffCfg)
    (mid desired : String) : Nat → Nat → Except GoErr Unit × List Eff
  | 0, _ => (.error .deadlineExceeded, [])
  | fuel + 1, k =>
    match waitT k with
    | .error e =>
      if e.is .canceled then (.error e, [.waitCall mid desired])
      else if e.is .deadlineExceeded then
        (.error (.wrap ("timeout reached waiting for machine to " ++ desired) e),
          [.waitCall mid desired])
      else
        let rest := waitLoop waitT cfg mid desired fuel (k + 1)
        (rest.1, .waitCall mid desired :: .sleep cfg k :: rest.2)
    | .ok _ => (.ok (), [.waitCall mid desired])

def LeasableMachine.WaitForState (env : Env) (lm : LeasableMachine)
    (desiredState : String) : Except GoErr Unit × List Eff :=
  waitLoop (env.waitApi lm.machine.id desiredState) waitStateBackoff
    lm.machine.id desiredState env.fuel 0

/-- The polling loop of WaitForHealthchecksToPass: any fetch error is
terminal (canceled as is, deadline wrapped, any other fetch error
wrapped and returned immediately); a fetched machine whose checks are
not all passing sleeps with backoff and retries. -/
def healthLoop (getT : Nat → Except GoErr Machine) (cfg : BackoffCfg)
    (mid : String) : Nat → Nat → Except GoErr Unit × List Eff
  | 0, _ => (.error .deadlineExceeded, [])
  | fuel + 1, k =>
    match getT k with
    | .error e =>
      if e.is .canceled then (.error e, [.getCall mid])
      else if e.is .deadlineExceeded then
        (.error (.wrap ("timeout reached waiting for healthchecks to pass for machine " ++ mid) e),
          [.getCall mid])
      else
        (.error (.wrap ("error getting machine " ++ mid ++ " from api") e), [.getCall mid])
    | .ok m =>
      if m.healthAllPassing then (.ok (), [.getCall mid])
      else
        let rest := healthLoop getT cfg mid fuel (k + 1)
        (rest.1, .getCall mid :: .sleep cfg k :: rest.2)

/-- WaitForHealthchecksToPass: immediate success without any API call
when the config checks map is nil, otherwise the polling loop with the
backoff derived from the shortest configured interval. -/
def LeasableMachine.WaitForHealthchecksToPass (env : Env) (lm : LeasableMachine) :
    Except GoErr Unit × List Eff :=
  match lm.machine.config.checks with
  | none => (.ok (), [])
  | some checks =>
    healthLoop (env.get lm.machine.id)
      (healthcheckBackoff (shortestCheckInterval checks)) lm.machine.id env.fuel 0

/-- The polling loop of WaitForEventTypeAfterType: fetch errors are
terminal exactly as in the healthcheck loop; a fetch without the sought
event sleeps with backoff and retries. -/
def eventLoop (getT : Nat → Except GoErr Machine) (cfg : BackoffCfg)
    (mid t1 t2 : String) : Nat → Nat → Except GoErr MachineEvent × List Eff
  | 0, _ => (.error .deadlineExceeded, [])
  | fuel + 1, k =>
    match getT k with
    | .error e =>
      if e.is .canceled then (.error e, [.getCall mid])
      else if e.is .deadlineExceeded then
        (.error (.wrap ("timeout reached waiting for healthchecks to pass for machine " ++ mid) e),
          [.getCall mid])
      else
        (.error (.wrap ("error getting machine " ++ mid ++ " from api") e), [.getCall mid])
    | .ok m =>
      match m.GetLatestEventOfTypeAfterType t1 t2 with
      | some ev => (.ok ev, [.getCall mid])
      | none =>
        let rest := eventLoop getT cfg mid t1 t2 fuel (k + 1)
        (rest.1, .getCall mid :: .sleep cfg k :: rest.2)

def LeasableMachine.WaitForEventTypeAfterType (env : Env) (lm : LeasableMachine)
    (eventType1 eventType2 : String) : Except GoErr MachineEvent × List Eff :=
  eventLoop (env.get lm.machine.id) waitStateBackoff lm.machine.id
    eventType1 eventType2 env.fuel 0

/-- The machine-deployment state built by NewMachineDeployment; the two
machine sets are the lists of their members. -/
structure MachineDeployment where
  appName : String
  orgSlug : String
  imgTag : String
  releaseCommand : String
  strategy : String
  restartOnly : Bool
  skipHealthChecks : Bool
  isPostgresApp : Bool
  machineSet : List LeasableMachine
  releaseCommandMachine : List LeasableMachine
  appChecksForMachines : List (String × MachineCheck)
  appServicesForMachines : List String
  appEnv : List (String × String)
  appMetrics : Option String
  primaryRegion : String
  volumeDestination : String
  releaseId : String
  releaseVersion : Int
  waitTimeout : Int
  leaseTimeout : Int
deriving DecidableEq, Repr

def defaultMachineMetadata (md : MachineDeployment) (processGroup : String) :
    List (String × String) :=
  let res := [
    (MachineConfigMetadataKeyFlyPlatformVersion, MachineFlyPlatformVersion2),
    (MachineConfigMetadataKeyFlyReleaseId, md.releaseId),
    (MachineConfigMetadataKeyFlyReleaseVersion, toString md.releaseVersion),
    (MachineConfigMetadataKeyProcessGroup, processGroup)]
  if md.isPostgresApp then insertA res MachineConfigMetadataKeyFlyManagedPostgres "true"
  else res

def isFlyAppsPlatformMetadata (key : String) : Bool :=
  key == MachineConfigMetadataKeyFlyPlatformVersion ||
  key == MachineConfigMetadataKeyFlyReleaseId ||
  key == MachineConfigMetadataKeyFlyReleaseVersion ||
  key == MachineConfigMetadataKeyProcessGroup ||
  key == MachineConfigMetadataKeyFlyManagedPostgres

/-- The metadata written by resolveUpdatedMachineConfig: fresh default
metadata plus every non-platform key of the original metadata. -/
def refreshedMetadata (md : MachineDeployment) (processGroup : String)
    (origMeta : List (String × String)) : List (String × String) :=
  origMeta.foldl
    (fun acc kv => if isFlyAppsPlatformMetadata kv.1 then acc else insertA acc kv.1 kv.2)
    (defaultMachineMetadata md processGroup)

/-- The body of resolveUpdatedMachineConfig for a non-nil original
machine.  In restart-only mode the original config is kept and only the
metadata is refreshed; otherwise image, init command, checks, services,
metrics and env come from desired state, the mounts are carried over
with the destination path reconciled, and the guest is carried over. -/
def resolvedLaunchInput (md : MachineDeployment) (processGroup : String)
    (orig : Machine) : LaunchMachineInput :=
  let machineConf := if md.restartOnly then orig.config else emptyMachineConfig
  let conf1 := { machineConf with
    metadata := refreshedMetadata md processGroup orig.config.metadata }
  if md.restartOnly then
    { id := orig.id, appId := md.appName, orgSlug := md.orgSlug,
      config := conf1, region := orig.region }
  else
    let conf2 := { conf1 with
      image := md.imgTag
      initCmd := []
      checks := some md.appChecksForMachines
      services := some md.appServicesForMachines
      metrics := md.appMetrics }
    let env1 :=
      if (lookupA md.appEnv "PRIMARY_REGION").getD "" = "" ∧
         (lookupA orig.config.env "PRIMARY_REGION").getD "" ≠ "" then
        insertA md.appEnv "PRIMARY_REGION" ((lookupA orig.config.env "PRIMARY_REGION").getD "")
      else md.appEnv
    let conf3 := { conf2 with env := env1 }
    let mounts2 :=
      match orig.config.mounts with
      | [mnt] =>
        if mnt.path ≠ md.volumeDestination then [{ mnt with path := md.volumeDestination }]
        else [mnt]
      | other => other
    let conf4 := { conf3 with mounts := mounts2 }
    let conf5 :=
      match orig.config.guest with
      | some g => { conf4 with guest := some g }
      | none => conf4
    { id := orig.id, appId := md.appName, orgSlug := md.orgSlug,
      config := conf5, region := orig.region }

/-- resolveUpdatedMachineConfig.  The source dereferences the original
machine pointer unconditionally, so a nil original machine is a Go
runtime panic, modelled by none. -/
def resolveUpdatedMachineConfig (md : MachineDeployment) (processGroup : String) :
    Option Machine → Option LaunchMachineInput
  | none => none
  | some orig => some (resolvedLaunchInput md processGroup orig)

/-- configureLaunchInputForReleaseCommand: command replaced by the
split shell words, services and checks cleared, restart policy forced
to never restart, region pinned to the primary region when set, and
the RELEASE_COMMAND env marker added when absent. -/
def configureLaunchInputForReleaseCommand (md : MachineDeployment)
    (launchInput : LaunchMachineInput) : LaunchMachineInput :=
  let c1 := { launchInput.config with
    initCmd := md.releaseCommand.splitOn " "
    services := none
    checks := none
    restart := { policy := MachineRestartPolicyNo } }
  let li1 := { launchInput with config := c1 }
  let li2 := if md.primaryRegion ≠ "" then { li1 with region := md.primaryRegion } else li1
  if (lookupA li2.config.env "RELEASE_COMMAND").isNone then
    { li2 with config := { li2.config with env := insertA li2.config.env "RELEASE_COMMAND" "1" } }
  else li2

/-- createReleaseCommandMachine: no-op unless a command is configured
and no release-command machine exists; the launch input is resolved
from a nil machine, which the source dereferences (Go panic). -/
def createReleaseCommandMachine (md : MachineDeployment) (env : Env) :
    RunResult MachineDeployment × List Eff :=
  if md.releaseCommand = "" ∨ md.releaseCommandMachine ≠ [] then (.ok md, [])
  else
    match resolveUpdatedMachineConfig md MachineProcessGroupReleaseCommand none with
    | none => (.panicked, [])
    | some li0 =>
      let li := configureLaunchInputForReleaseCommand md li0
      match env.launch li with
      | .error e => (.err (.wrap "error creating a release_command machine" e), [.launchCall li])
      | .ok m =>
        (.ok { md with releaseCommandMachine :=
          [{ machine := m, leaseNonce := "", leaseExpiration := 0 }] }, [.launchCall li])

/-- updateReleaseCommandMachine: wait for the existing release-command
machine to stop, update it under a freshly acquired fleet lease with
the release-command overrides, and release the lease (deferred, on
every exit path past the acquire). -/
def updateReleaseCommandMachine (md : MachineDeployment) (env : Env) :
    RunResult MachineDeployment × List Eff :=
  if md.releaseCommand = "" then (.ok md, [])
  else
    match md.releaseCommandMachine with
    | [] => (.err (.msg "expected release_command machine to exist already, but it does not"), [])
    | rcm :: rrest =>
      let w := rcm.WaitForState env MachineStateStopped
      match w.1 with
      | .error e => (.err e, w.2)
      | .ok _ =>
        let updatedConfig := configureLaunchInputForReleaseCommand md
          (resolvedLaunchInput md MachineProcessGroupReleaseCommand rcm.machine)
        let a := AcquireLeases env md.leaseTimeout (rcm :: rrest)
        match a.2.1 with
        | .error e =>
          let r := ReleaseLeases env false a.1
          (.err e, w.2 ++ a.2.2 ++ r.2.2)
        | .ok _ =>
          match a.1 with
          | [] => (.panicked, w.2 ++ a.2.2)
          | rcm1 :: rrest1 =>
            let u := rcm1.Update env updatedConfig
            match u.2.1 with
            | .error e =>
              let r := ReleaseLeases env false (u.1 :: rrest1)
              (.err (.wrap "error updating release_command machine" e),
                w.2 ++ a.2.2 ++ u.2.2 ++ r.2.2)
            | .ok _ =>
              let r := ReleaseLeases env false (u.1 :: rrest1)
              (.ok { md with releaseCommandMachine := r.1 },
                w.2 ++ a.2.2 ++ u.2.2 ++ r.2.2)

def createOrUpdateReleaseCmdMachine (md : MachineDeployment) (env : Env) :
    RunResult MachineDeployment × List Eff :=
  if md.releaseCommandMachine = [] then createReleaseCommandMachine md env
  else updateReleaseCommandMachine md env

/-- runReleaseCommand: no-op when no command is configured, the
release-command machine set is empty, or restart-only mode is active;
otherwise create-or-update the release-command machine, wait for it to
start and stop, locate the exit event after the latest start event, and
fail the deployment on a non-zero exit code. -/
def runReleaseCommand (md : MachineDeployment) (env : Env) :
    RunResult MachineDeployment × List Eff :=
  if md.releaseCommand = "" ∨ md.releaseCommandMachine = [] ∨ md.restartOnly then (.ok md, [])
  else
    let c := createOrUpdateReleaseCmdMachine md env
    match c.1 with
    | .err e => (.err (.wrap "error running release_command machine" e), c.2)
    | .panicked => (.panicked, c.2)
    | .ok md1 =>
      match md1.releaseCommandMachine with
      | [] => (.panicked, c.2)
      | rcm :: _ =>
        let w1 := rcm.WaitForState env MachineStateStarted
        match w1.1 with
        | .error e =>
          (.err (.wrap ("error waiting for release_command machine " ++ rcm.machine.id ++ " to start") e),
            c.2 ++ w1.2)
        | .ok _ =>
          let w2 := rcm.WaitForState env MachineStateStopped
          match w2.1 with
          | .error e =>
            (.err (.wrap ("error waiting for release_command machine " ++ rcm.machine.id ++ " to finish running") e),
              c.2 ++ w1.2 ++ w2.2)
          | .ok _ =>
            let w3 := rcm.WaitForEventTypeAfterType env "exit" "start"
            match w3.1 with
            | .error e =>
              (.err (.wrap ("error finding the release_command machine " ++ rcm.machine.id ++ " exit event") e),
                c.2 ++ w1.2 ++ w2.2 ++ w3.2)
            | .ok lastExitEvent =>
              match lastExitEvent.GetExitCode with
              | .error e =>
                (.err (.wrap ("error get release_command machine " ++ rcm.machine.id ++ " exit code") e),
                  c.2 ++ w1.2 ++ w2.2 ++ w3.2)
              | .ok exitCode =>
                if exitCode ≠ 0 then
                  (.err (.msg ("error release_command machine " ++ rcm.machine.id ++ " exited with non-zero status")),
                    c.2 ++ w1.2 ++ w2.2 ++ w3.2)
                else (.ok md1, c.2 ++ w1.2 ++ w2.2 ++ w3.2)

/-- createOneMachine: the empty-fleet path.  The source resolves the
launch input from a nil machine with the release-command process group;
the nil dereference is a Go panic. -/
def createOneMachine (md : MachineDeployment) (env : Env) :
    RunResult Unit × List Eff :=
  match resolveUpdatedMachineConfig md MachineProcessGroupReleaseCommand none with
  | none => (.panicked, [])
  | some li =>
    match env.launch li with
    | .error e => (.err (.wrap "error creating a new machine machine" e), [.launchCall li])
    | .ok raw =>
      let newMachine : LeasableMachine := { machine := raw, leaseNonce := "", leaseExpiration := 0 }
      if md.strategy = "immediate" then (.ok (), [.launchCall li])
      else
        let w := newMachine.WaitForState env MachineStateStarted
        match w.1 with
        | .error e => (.err e, .launchCall li :: w.2)
        | .ok _ =>
          if md.skipHealthChecks then (.ok (), .launchCall li :: w.2)
          else
            let h := newMachine.WaitForHealthchecksToPass env
            match h.1 with
            | .error e => (.err e, .launchCall li :: (w.2 ++ h.2))
            | .ok _ => (.ok (), .launchCall li :: (w.2 ++ h.2))

/-- The body of the populated-fleet update loop for one machine:
resolve the config, issue the update (an error aborts unless the
strategy is immediate), and, unless the strategy is immediate, wait for
started and (unless skipped) for healthchecks.  Left means continue
with the next machine, right means abort the rollout. -/
def deployStep (md : MachineDeployment) (env : Env) (m : LeasableMachine) :
    (LeasableMachine × List Eff) ⊕ (LeasableMachine × GoErr × List Eff) :=
  let li := resolvedLaunchInput md MachineProcessGroupApp m.machine
  let u := m.Update env li
  match u.2.1 with
  | .error e =>
    if md.strategy = "immediate" then .inl (u.1, u.2.2)
    else .inr (u.1, e, u.2.2)
  | .ok _ =>
    if md.strategy = "immediate" then .inl (u.1, u.2.2)
    else
      let w := u.1.WaitForState env MachineStateStarted
      match w.1 with
      | .error e => .inr (u.1, e, u.2.2 ++ w.2)
      | .ok _ =>
        if md.skipHealthChecks then .inl (u.1, u.2.2 ++ w.2)
        else
          let h := u.1.WaitForHealthchecksToPass env
          match h.1 with
          | .error e => .inr (u.1, e, u.2.2 ++ w.2 ++ h.2)
          | .ok _ => .inl (u.1, u.2.2 ++ w.2 ++ h.2)

/-- The populated-fleet update loop over the members in collection
order. -/
def deployLoop (md : MachineDeployment) (env : Env) :
    List LeasableMachine → List LeasableMachine × Except GoErr Unit × List Eff
  | [] => ([], .ok (), [])
  | m :: rest =>
    match deployStep md env m with
    | .inr (m1, e, effs) => (m1 :: rest, .error e, effs)
    | .inl (m1, effs) =>
      let r := deployLoop md env rest
      (m1 :: r.1, r.2.1, effs ++ r.2.2)

/-- DeployMachinesApp: release-command phase first (a failure aborts
the deployment), then the empty-fleet path, otherwise all-or-nothing
lease acquisition, the update loop, and the deferred fleet lease
release on every exit path past the acquire. -/
def DeployMachinesApp (md : MachineDeployment) (env : Env) :
    RunResult Unit × List Eff :=
  let rc := runReleaseCommand md env
  match rc.1 with
  | .err e => (.err (.wrap "release command failed - aborting deployment" e), rc.2)
  | .panicked => (.panicked, rc.2)
  | .ok md1 =>
    if md1.machineSet = [] then
      let co := createOneMachine md1 env
      (co.1, rc.2 ++ co.2)
    else
      let a := AcquireLeases env md1.leaseTimeout md1.machineSet
      match a.2.1 with
      | .error e =>
        let r := ReleaseLeases env false a.1
        (.err e, rc.2 ++ a.2.2 ++ r.2.2)
      | .ok _ =>
        let dl := deployLoop md1 env a.1
        let r := ReleaseLeases env false dl.1
        match dl.2.1 with
        | .error e => (.err e, rc.2 ++ a.2.2 ++ dl.2.2 ++ r.2.2)
        | .ok _ => (.ok (), rc.2 ++ a.2.2 ++ dl.2.2 ++ r.2.2)

/-! Concrete inputs used by the claim witnesses and counterexamples. -/

def mkMachine (mid : String) : Machine :=
  { id := mid, region := "ord", state := "started", config := emptyMachineConfig,
    events := [], checkStatuses := [] }

def baseEnv : Env :=
  { now := 0, fuel := 8,
    acquireLease := fun _ _ => .error (.msg "unexpected acquire"),
    releaseLease := fun _ _ => .ok (),
    update := fun _ _ _ => .error (.msg "unexpected update"),
    launch := fun _ => .error (.msg "unexpected launch"),
    waitApi := fun _ _ _ => .ok (),
    get := fun _ _ => .error (.msg "unexpected get") }

def exNoLease : LeasableMachine :=
  { machine := mkMachine "m1", leaseNonce := "", leaseExpiration := 0 }

def exExpiredLease : LeasableMachine :=
  { machine := mkMachine "m1", leaseNonce := "nx", leaseExpiration := 1 * nsPerSecond }

def exHeldLease : LeasableMachine :=
  { machine := mkMachine "m1", leaseNonce := "nh", leaseExpiration := 100 * nsPerSecond }

def envLate : Env := { baseEnv with now := 20 * nsPerSecond }

def envNow1 : Env := { baseEnv with now := 1 * nsPerSecond }

def envRelFail : Env :=
  { envNow1 with releaseLease := fun _ _ => .error (.msg "remote release failed") }

def machineAfterUpdate : Machine := mkMachine "m1-after"

def envUpdOk : Env :=
  { envNow1 with update := fun mid nonce _ =>
      if mid = "m1" && nonce = "nh" then .ok machineAfterUpdate
      else .error (.msg "unexpected update") }

def exFleet : List LeasableMachine :=
  [ { machine := mkMachine "m1", leaseNonce := "", leaseExpiration := 0 },
    { machine := mkMachine "m2", leaseNonce := "", leaseExpiration := 0 } ]

def envFleetLease : Env :=
  { baseEnv with
    acquireLease := fun mid _ =>
      if mid = "m1" then
        .ok { status := "success", code := "", message := "",
              data := some { nonce := "n1", expiresAt := 1000 } }
      else .error (.msg "machine m2 already leased") }

def exLeaseDuration : Int := 30 * 60 * nsPerSecond

def mdWitness : MachineDeployment :=
  { appName := "demo", orgSlug := "org", imgTag := "registry/demo:v2",
    releaseCommand := "", strategy := "rolling", restartOnly := false,
    skipHealthChecks := true, isPostgresApp := false,
    machineSet := [], releaseCommandMachine := [],
    appChecksForMachines := [], appServicesForMachines := [],
    appEnv := [], appMetrics := none, primaryRegion := "",
    volumeDestination := "", releaseId := "rel1", releaseVersion := 3,
    waitTimeout := 120 * nsPerSecond, leaseTimeout := exLeaseDuration }

def m9config : MachineConfig :=
  { image := "old-image", initCmd := ["./server"],
    checks := some [("c1", { interval := 15 * nsPerSecond })],
    services := some ["svc1"], restart := { policy := "always" },
    env := [("A", "1")],
    mounts := [{ volume := "vol1", path := "/data", name := "data" }],
    metadata := [("fly_platform_version", "v2"), ("custom", "x")],
    guest := some "shared-cpu-1x", metrics := some "mx" }

def m9 : Machine :=
  { id := "m9", region := "fra", state := "stopped", config := m9config,
    events := [], checkStatuses := [] }

def md9 : MachineDeployment := { mdWitness with restartOnly := true }

def hcCheckList : List (String × MachineCheck) := [("c1", { interval := 10 * nsPerSecond })]

def lmHC : LeasableMachine :=
  { machine := { mkMachine "hc1" with
      config := { emptyMachineConfig with checks := some hcCheckList } },
    leaseNonce := "", leaseExpiration := 0 }

def healthyHC : Machine := { mkMachine "hc1" with checkStatuses := ["passing"] }

def unhealthyHC : Machine := { mkMachine "hc1" with checkStatuses := ["critical"] }

def envHCerr : Env :=
  { baseEnv with
    fuel := 5
    get := fun mid k =>
      if mid = "hc1" ∧ k = 0 then .error (.msg "transient") else .ok healthyHC }

def envHCslow : Env :=
  { baseEnv with
    fuel := 5
    get := fun _ k => if k = 0 then .ok unhealthyHC else .ok healthyHC }

def envHCok : Env :=
  { baseEnv with
    fuel := 5
    get := fun _ _ => .ok healthyHC }

def lmA : LeasableMachine :=
  { machine := mkMachine "mA", leaseNonce := "na", leaseExpiration := 100 * nsPerSecond }

def lmB : LeasableMachine :=
  { machine := mkMachine "mB", leaseNonce := "nb", leaseExpiration := 100 * nsPerSecond }

def lmC : LeasableMachine :=
  { machine := mkMachine "mC", leaseNonce := "nc", leaseExpiration := 100 * nsPerSecond }

def envC4 : Env :=
  { baseEnv with
    now := 1 * nsPerSecond
    update := fun mid _ _ =>
      if mid = "mB" then .error (.msg "vm 2 update failed")
      else if mid = "mA" then .ok (mkMachine "mA")
      else .ok (mkMachine "mC")
    waitApi := fun _ _ _ => .ok () }

def mdRolling : MachineDeployment :=
  { mdWitness with strategy := "rolling", skipHealthChecks := true }

def mdImmediate : MachineDeployment :=
  { mdWitness with strategy := "immediate", skipHealthChecks := true }

/-- Every effect in the list either addresses no machine or addresses
one of the given machine ids. -/
def EffsWithin (ids : List String) (effs : List Eff) : Prop :=
  ∀ eff ∈ effs, eff.machineId = none ∨ ∃ i ∈ ids, eff.machineId = some i

def md5 : MachineDeployment :=
  { mdWitness with
    releaseCommand := "bin/migrate"
    restartOnly := false
    releaseCommandMachine := []
    machineSet := [lmA] }

def md6 : MachineDeployment :=
  { mdWitness with machineSet := [], releaseCommand := "" }

def lmRC : LeasableMachine :=
  { machine := mkMachine "rc1", leaseNonce := "", leaseExpiration := 0 }

def ev7 : MachineEvent := { eventType := "exit", timestamp := 2, exitCode := some 7 }

def rcMachineExited : Machine :=
  { mkMachine "rc1" with
    events := [{ eventType := "start", timestamp := 1, exitCode := none }, ev7] }

def mdC1 : MachineDeployment :=
  { mdWitness with
    releaseCommand := "bin/migrate"
    machineSet := [lmA]
    releaseCommandMachine := [lmRC] }

def envC1 : Env :=
  { baseEnv with
    now := 1 * nsPerSecond
    fuel := 3
    waitApi := fun _ _ _ => .ok ()
    acquireLease := fun mid _ =>
      if mid = "rc1" then
        .ok { status := "success", code := "", message := "",
              data := some { nonce := "rcn", expiresAt := 1000 } }
      else .error (.msg "unexpected acquire")
    releaseLease := fun _ _ => .ok ()
    update := fun mid nonce _ =>
      if mid = "rc1" ∧ nonce = "rcn" then .ok (mkMachine "rc1")
      else .error (.msg "unexpected update")
    get := fun mid _ =>
      if mid = "rc1" then .ok rcMachineExited else .error (.msg "unexpected get") }

def effs0Ex : List Eff :=
  [.waitCall "rc1" "stopped", .acquireLeaseCall "rc1" 1800,
   .updateCall "rc1" "rcn", .releaseLeaseCall "rc1" "rcn"]

/-! Theorems. -/

theorem ReleaseLease_fst (env : Env) (lm : LeasableMachine) :
    (lm.ReleaseLease env).1 = resetLease lm := by
  unfold LeasableMachine.ReleaseLease
  split
  · rfl
  · split
    · rfl
    · cases env.releaseLease lm.machine.id lm.leaseNonce <;> simp

theorem HasLease_reset (t : Int) (lm : LeasableMachine) :
    HasLease t (resetLease lm) = false := by
  simp [HasLease, resetLease]

/-- C10: on every return path of ReleaseLease, whether no lease was
held, the tracked lease had expired, the API release succeeded, or the
API release failed, the local lease state is cleared (nonce empty and
expiration zeroed), so HasLease is false at every instant afterwards. -/
theorem ReleaseLease_always_clears_local_state (env : Env) (lm : LeasableMachine) :
    ((lm.ReleaseLease env).1.leaseNonce = "" ∧ (lm.ReleaseLease env).1.leaseExpiration = 0) ∧
    ∀ t : Int, HasLease t (lm.ReleaseLease env).1 = false := by
  rw [ReleaseLease_fst]
  exact ⟨⟨rfl, rfl⟩, fun t => HasLease_reset t lm⟩

/-- C7: ReleaseLease is a success without any API call when no lease is
held, and in particular when a tracked lease expired more than 5
seconds ago, clearing local state; when a lease is held (nonce nonempty
and expiry in the future) it issues the release API call, and an API
failure is returned only after local state is cleared. -/
theorem ReleaseLease_expiry_tolerance (env : Env) (lm : LeasableMachine) :
    (HasLease env.now lm = false → lm.ReleaseLease env = (resetLease lm, .ok (), [])) ∧
    (lm.leaseNonce ≠ "" → env.now - lm.leaseExpiration > 5 * nsPerSecond →
      lm.ReleaseLease env = (resetLease lm, .ok (), [])) ∧
    (HasLease env.now lm = true →
      (lm.ReleaseLease env).2.2 = [.releaseLeaseCall lm.machine.id lm.leaseNonce] ∧
      (∀ e, env.releaseLease lm.machine.id lm.leaseNonce = .error e →
        lm.ReleaseLease env =
          (resetLease lm, .error e, [.releaseLeaseCall lm.machine.id lm.leaseNonce])) ∧
      (env.releaseLease lm.machine.id lm.leaseNonce = .ok () →
        lm.ReleaseLease env =
          (resetLease lm, .ok (), [.releaseLeaseCall lm.machine.id lm.leaseNonce]))) := by
  have hns : nsPerSecond = 1000000000 := rfl
  refine ⟨?_, ?_, ?_⟩
  · intro h
    simp [LeasableMachine.ReleaseLease, h]
  · intro hn h5
    have hfalse : HasLease env.now lm = false := by
      simp only [HasLease, Bool.and_eq_false_iff]
      right
      simp only [decide_eq_false_iff_not, not_lt]
      omega
    simp [LeasableMachine.ReleaseLease, hfalse]
  · intro h
    have hlt : env.now < lm.leaseExpiration := by
      simp only [HasLease, Bool.and_eq_true, decide_eq_true_eq] at h
      exact h.2
    have h5 : ¬ env.now - lm.leaseExpiration > 5 * nsPerSecond := by omega
    refine ⟨?_, ?_, ?_⟩
    · simp only [LeasableMachine.ReleaseLease, h, h5]
      simp
      cases env.releaseLease lm.machine.id lm.leaseNonce <;> simp
    · intro e he
      simp [LeasableMachine.ReleaseLease, h, h5, he]
    · intro he
      simp [LeasableMachine.ReleaseLease, h, h5, he]

theorem ReleaseLease_expiry_tolerance_witness :
    (HasLease baseEnv.now exNoLease = false ∧
      exNoLease.ReleaseLease baseEnv = (resetLease exNoLease, .ok (), [])) ∧
    (exExpiredLease.leaseNonce ≠ "" ∧
      envLate.now - exExpiredLease.leaseExpiration > 5 * nsPerSecond ∧
      exExpiredLease.ReleaseLease envLate = (resetLease exExpiredLease, .ok (), [])) ∧
    (HasLease envRelFail.now exHeldLease = true ∧
      exHeldLease.ReleaseLease envRelFail =
        (resetLease exHeldLease, .error (.msg "remote release failed"),
          [.releaseLeaseCall "m1" "nh"])) ∧
    (HasLease envNow1.now exHeldLease = true ∧
      exHeldLease.ReleaseLease envNow1 =
        (resetLease exHeldLease, .ok (), [.releaseLeaseCall "m1" "nh"])) := by
  refine ⟨⟨by decide, (ReleaseLease_expiry_tolerance baseEnv exNoLease).1 (by decide)⟩,
    ⟨by decide, by decide, (ReleaseLease_expiry_tolerance envLate exExpiredLease).2.1
      (by decide) (by decide)⟩,
    ⟨by decide, ((ReleaseLease_expiry_tolerance envRelFail exHeldLease).2.2 (by decide)).2.1
      (.msg "remote release failed") (by decide)⟩,
    ⟨by decide, ((ReleaseLease_expiry_tolerance envNow1 exHeldLease).2.2 (by decide)).2.2
      (by decide)⟩⟩

/-- C3: Update fails with the precondition error and issues no API call
whenever no lease is held at call time; with a lease held it issues the
API update carrying the current lease nonce, and a successful response
replaces the local VM snapshot. -/
theorem Update_requires_lease (env : Env) (lm : LeasableMachine) (input : LaunchMachineInput) :
    (HasLease env.now lm = false →
      lm.Update env input =
        (lm, .error (.msg ("no current lease for machine " ++ lm.machine.id)), [])) ∧
    (HasLease env.now lm = true →
      (lm.Update env input).2.2 = [.updateCall lm.machine.id lm.leaseNonce] ∧
      (∀ m, env.update lm.machine.id lm.leaseNonce input = .ok m →
        lm.Update env input =
          ({ lm with machine := m }, .ok (), [.updateCall lm.machine.id lm.leaseNonce])) ∧
      (∀ e, env.update lm.machine.id lm.leaseNonce input = .error e →
        lm.Update env input =
          (lm, .error e, [.updateCall lm.machine.id lm.leaseNonce]))) := by
  constructor
  · intro h
    simp [LeasableMachine.Update, h]
  · intro h
    refine ⟨?_, ?_, ?_⟩
    · simp only [LeasableMachine.Update, h]
      simp
      cases env.update lm.machine.id lm.leaseNonce input <;> simp
    · intro m hm
      simp [LeasableMachine.Update, h, hm]
    · intro e he
      simp [LeasableMachine.Update, h, he]

theorem Update_requires_lease_witness :
    (HasLease envNow1.now exNoLease = false ∧
      exNoLease.Update envNow1 (resolvedLaunchInput mdWitness MachineProcessGroupApp (mkMachine "m1")) =
        (exNoLease, .error (.msg "no current lease for machine m1"), [])) ∧
    (HasLease envUpdOk.now exHeldLease = true ∧
      exHeldLease.Update envUpdOk (resolvedLaunchInput mdWitness MachineProcessGroupApp (mkMachine "m1")) =
        ({ exHeldLease with machine := machineAfterUpdate }, .ok (),
          [.updateCall "m1" "nh"])) := by
  refine ⟨⟨by decide, (Update_requires_lease envNow1 exNoLease _).1 (by decide)⟩,
    ⟨by decide, ((Update_requires_lease envUpdOk exHeldLease _).2 (by decide)).2.1
      machineAfterUpdate (by decide)⟩⟩

theorem any_map_fun {α β : Type} (f : α → β) (p : β → Bool) (l : List α) :
    (l.map f).any p = l.any (fun a => p (f a)) := by
  induction l with
  | nil => rfl
  | cons a t ih => simp [List.any_cons, ih]

theorem ReleaseLeases_fst (env : Env) (c : Bool) (ms : List LeasableMachine) :
    (ReleaseLeases env c ms).1 = ms.map (fun m => (m.ReleaseLease env).1) := by
  unfold ReleaseLeases
  dsimp only
  split <;> simp [List.map_map]

theorem ReleaseLeases_clears (env : Env) (c : Bool) (ms : List LeasableMachine) :
    ∀ lm ∈ (ReleaseLeases env c ms).1, ∀ t : Int, HasLease t lm = false := by
  intro lm hmem t
  rw [ReleaseLeases_fst] at hmem
  obtain ⟨m, _, rfl⟩ := List.mem_map.mp hmem
  rw [ReleaseLease_fst]
  exact HasLease_reset t m

/-- C2: when any member of the fleet fails lease acquisition,
AcquireLeases returns the fleet lease error, its resulting member list
is exactly the result of invoking ReleaseLeases on all members
(including the ones whose acquisition succeeded), and afterwards no
member holds a lease. -/
theorem AcquireLeases_all_or_nothing (env : Env) (duration : Int)
    (ms : List LeasableMachine)
    (h : ms.any (fun m => isErr (m.AcquireLease env duration).2.1) = true) :
    (AcquireLeases env duration ms).2.1 =
      .error (.msg "error acquiring leases on all machines") ∧
    (AcquireLeases env duration ms).1 =
      (ReleaseLeases env false (ms.map (fun m => (m.AcquireLease env duration).1))).1 ∧
    ∀ lm ∈ (AcquireLeases env duration ms).1, ∀ t : Int, HasLease t lm = false := by
  have hh : ((ms.map (fun m => m.AcquireLease env duration)).any (fun r => isErr r.2.1)) = true := by
    rw [any_map_fun]
    exact h
  unfold AcquireLeases
  dsimp only
  rw [hh]
  simp only [if_true, List.map_map]
  exact ⟨trivial, rfl, ReleaseLeases_clears env false _⟩

theorem AcquireLeases_all_or_nothing_witness :
    exFleet.any (fun m => isErr (m.AcquireLease envFleetLease exLeaseDuration).2.1) = true ∧
    (AcquireLeases envFleetLease exLeaseDuration exFleet).2.1 =
      .error (.msg "error acquiring leases on all machines") ∧
    (AcquireLeases envFleetLease exLeaseDuration exFleet).1 =
      [ { machine := mkMachine "m1", leaseNonce := "", leaseExpiration := 0 },
        { machine := mkMachine "m2", leaseNonce := "", leaseExpiration := 0 } ] ∧
    HasLease 500 { machine := mkMachine "m1", leaseNonce := "", leaseExpiration := (0 : Int) } = false := by
  refine ⟨by decide, (AcquireLeases_all_or_nothing envFleetLease exLeaseDuration exFleet (by decide)).1,
    by decide,
    (AcquireLeases_all_or_nothing envFleetLease exLeaseDuration exFleet (by decide)).2.2
      { machine := mkMachine "m1", leaseNonce := "", leaseExpiration := 0 } (by decide) 500⟩

/-- C9: in restart-only mode the resolved configuration is exactly the
original machine configuration with only the metadata refreshed: image,
init command, checks, services, metrics, environment, mounts and guest
are unchanged. -/
theorem resolve_restartOnly_frame (md : MachineDeployment) (pg : String) (m : Machine)
    (h : md.restartOnly = true) :
    (resolvedLaunchInput md pg m).config =
      { m.config with metadata := refreshedMetadata md pg m.config.metadata } ∧
    (resolvedLaunchInput md pg m).config.image = m.config.image ∧
    (resolvedLaunchInput md pg m).config.initCmd = m.config.initCmd ∧
    (resolvedLaunchInput md pg m).config.checks = m.config.checks ∧
    (resolvedLaunchInput md pg m).config.services = m.config.services ∧
    (resolvedLaunchInput md pg m).config.metrics = m.config.metrics ∧
    (resolvedLaunchInput md pg m).config.env = m.config.env ∧
    (resolvedLaunchInput md pg m).config.mounts = m.config.mounts ∧
    (resolvedLaunchInput md pg m).config.guest = m.config.guest := by
  have hc : (resolvedLaunchInput md pg m).config =
      { m.config with metadata := refreshedMetadata md pg m.config.metadata } := by
    simp [resolvedLaunchInput, h]
  exact ⟨hc, by rw [hc], by rw [hc], by rw [hc], by rw [hc], by rw [hc],
    by rw [hc], by rw [hc], by rw [hc]⟩

theorem resolve_restartOnly_frame_witness :
    md9.restartOnly = true ∧
    (resolvedLaunchInput md9 MachineProcessGroupApp m9).config =
      { m9.config with metadata := refreshedMetadata md9 MachineProcessGroupApp m9.config.metadata } ∧
    (resolvedLaunchInput md9 MachineProcessGroupApp m9).config.image = "old-image" ∧
    (resolvedLaunchInput md9 MachineProcessGroupApp m9).config.guest = some "shared-cpu-1x" := by
  refine ⟨by decide, (resolve_restartOnly_frame md9 MachineProcessGroupApp m9 (by decide)).1, ?_, ?_⟩
  · rw [(resolve_restartOnly_frame md9 MachineProcessGroupApp m9 (by decide)).2.1]
    decide
  · rw [(resolve_restartOnly_frame md9 MachineProcessGroupApp m9 (by decide)).2.2.2.2.2.2.2.2]
    decide

/-- C8 counterexample: a transient fetch error (neither canceled nor
deadline) on the first poll makes WaitForHealthchecksToPass return an
error after a single Get call, although the very next poll would have
returned an all-passing machine: transient fetch errors are not
retried. -/
theorem WaitForHealthchecks_transient_not_retried :
    (lmHC.WaitForHealthchecksToPass envHCerr).1 =
      .error (.wrap "error getting machine hc1 from api" (.msg "transient")) ∧
    (lmHC.WaitForHealthchecksToPass envHCerr).2 = [.getCall "hc1"] ∧
    envHCerr.get "hc1" 1 = .ok healthyHC ∧
    healthyHC.healthAllPassing = true := by
  refine ⟨by decide, by decide, by decide, by decide⟩

theorem healthLoop_sleep_cfg (getT : Nat → Except GoErr Machine) (cfg : BackoffCfg)
    (mid : String) :
    ∀ (fuel k : Nat) (c : BackoffCfg) (a : Nat),
      Eff.sleep c a ∈ (healthLoop getT cfg mid fuel k).2 → c = cfg := by
  intro fuel
  induction fuel with
  | zero =>
    intro k c a h
    simp [healthLoop] at h
  | succ f ih =>
    intro k c a h
    unfold healthLoop at h
    rcases hg : getT k with e | m <;> rw [hg] at h
    · cases h1 : e.is GoErr.canceled with
      | true => simp [h1] at h
      | false =>
        cases h2 : e.is GoErr.deadlineExceeded with
        | true => simp [h1, h2] at h
        | false => simp [h1, h2] at h
    · cases hp : m.healthAllPassing with
      | true => simp [hp] at h
      | false =>
        dsimp only at h
        rw [if_neg (by simp [hp])] at h
        rcases List.mem_cons.mp h with h0 | h3
        · exact absurd h0 (by simp)
        · rcases List.mem_cons.mp h3 with h1 | h2
          · cases h1
            rfl
          · exact ih (k + 1) c a h2

/-- C8 amended: WaitForHealthchecksToPass succeeds immediately without
any API call when the machine has no configured checks; otherwise it
polls Get until all checks report passing, sleeping between polls with
the jittered backoff derived from the shortest configured check
interval (half of it up to twice it); any fetch error is terminal:
context cancellation is returned as is, a deadline is wrapped, and any
other fetch error is returned immediately without a retry. -/
theorem WaitForHealthchecks_poll_contract (env : Env) (lm : LeasableMachine) :
    (lm.machine.config.checks = none →
      lm.WaitForHealthchecksToPass env = (.ok (), [])) ∧
    (∀ cs, lm.machine.config.checks = some cs →
      (∀ e, env.get lm.machine.id 0 = .error e → e.is .canceled = false →
        e.is .deadlineExceeded = false → 0 < env.fuel →
        lm.WaitForHealthchecksToPass env =
          (.error (.wrap ("error getting machine " ++ lm.machine.id ++ " from api") e),
            [.getCall lm.machine.id])) ∧
      (∀ m, env.get lm.machine.id 0 = .ok m → m.healthAllPassing = true → 0 < env.fuel →
        lm.WaitForHealthchecksToPass env = (.ok (), [.getCall lm.machine.id])) ∧
      (∀ c a, Eff.sleep c a ∈ (lm.WaitForHealthchecksToPass env).2 →
        c = healthcheckBackoff (shortestCheckInterval cs))) := by
  constructor
  · intro h
    simp [LeasableMachine.WaitForHealthchecksToPass, h]
  · intro cs hcs
    refine ⟨?_, ?_, ?_⟩
    · intro e he h1 h2 hf
      obtain ⟨f, hf1⟩ : ∃ f, env.fuel = f + 1 := ⟨env.fuel - 1, by omega⟩
      simp only [LeasableMachine.WaitForHealthchecksToPass, hcs]
      rw [hf1]
      unfold healthLoop
      rw [he]
      simp [h1, h2]
    · intro m hm hp hf
      obtain ⟨f, hf1⟩ : ∃ f, env.fuel = f + 1 := ⟨env.fuel - 1, by omega⟩
      simp only [LeasableMachine.WaitForHealthchecksToPass, hcs]
      rw [hf1]
      unfold healthLoop
      rw [hm]
      simp [hp]
    · intro c a h
      simp only [LeasableMachine.WaitForHealthchecksToPass, hcs] at h
      exact healthLoop_sleep_cfg (env.get lm.machine.id)
        (healthcheckBackoff (shortestCheckInterval cs)) lm.machine.id env.fuel 0 c a h

theorem WaitForHealthchecks_poll_contract_witness :
    (exNoLease.machine.config.checks = none ∧
      exNoLease.WaitForHealthchecksToPass baseEnv = (.ok (), [])) ∧
    (lmHC.WaitForHealthchecksToPass envHCerr =
      (.error (.wrap "error getting machine hc1 from api" (.msg "transient")),
        [.getCall "hc1"])) ∧
    (lmHC.WaitForHealthchecksToPass envHCok = (.ok (), [.getCall "hc1"])) ∧
    (Eff.sleep { min := 5 * nsPerSecond, max := 20 * nsPerSecond, factor := 2, jitter := true } 0 ∈
      (lmHC.WaitForHealthchecksToPass envHCslow).2 ∧
      { min := 5 * nsPerSecond, max := 20 * nsPerSecond, factor := (2 : Int), jitter := true } =
        healthcheckBackoff (shortestCheckInterval hcCheckList)) := by
  refine ⟨⟨by decide, (WaitForHealthchecks_poll_contract baseEnv exNoLease).1 (by decide)⟩, ?_, ?_, ?_, ?_⟩
  · exact ((WaitForHealthchecks_poll_contract envHCerr lmHC).2 hcCheckList (by decide)).1
      (.msg "transient") (by decide) (by decide) (by decide) (by decide)
  · exact ((WaitForHealthchecks_poll_contract envHCok lmHC).2 hcCheckList (by decide)).2.1
      healthyHC (by decide) (by decide) (by decide)
  · decide
  · exact ((WaitForHealthchecks_poll_contract envHCslow lmHC).2 hcCheckList (by decide)).2.2
      { min := 5 * nsPerSecond, max := 20 * nsPerSecond, factor := 2, jitter := true } 0 (by decide)

theorem deployStep_immediate (md : MachineDeployment) (env : Env) (m : LeasableMachine)
    (h : md.strategy = "immediate") :
    deployStep md env m =
      .inl ((m.Update env (resolvedLaunchInput md MachineProcessGroupApp m.machine)).1,
        (m.Update env (resolvedLaunchInput md MachineProcessGroupApp m.machine)).2.2) := by
  unfold deployStep
  dsimp only
  cases hu : (m.Update env (resolvedLaunchInput md MachineProcessGroupApp m.machine)).2.1 with
  | error e => simp [hu, h]
  | ok v => simp [hu, h]

theorem deployLoop_immediate_ok (md : MachineDeployment) (env : Env)
    (h : md.strategy = "immediate") :
    ∀ ms, (deployLoop md env ms).2.1 = .ok () := by
  intro ms
  induction ms with
  | nil => rfl
  | cons m t ih => simp [deployLoop, deployStep_immediate md env m h, ih]

theorem deployLoop_append (md : MachineDeployment) (env : Env)
    (ms2 : List LeasableMachine) :
    ∀ ms1, (deployLoop md env ms1).2.1 = .ok () →
      deployLoop md env (ms1 ++ ms2) =
        ((deployLoop md env ms1).1 ++ (deployLoop md env ms2).1,
          (deployLoop md env ms2).2.1,
          (deployLoop md env ms1).2.2 ++ (deployLoop md env ms2).2.2) := by
  intro ms1
  induction ms1 with
  | nil =>
    intro _
    simp [deployLoop]
  | cons m t ih =>
    intro h
    cases hs : deployStep md env m with
    | inr v =>
      exfalso
      obtain ⟨m1, e1, effs1⟩ := v
      simp [deployLoop, hs] at h
    | inl v =>
      obtain ⟨m1, effs1⟩ := v
      have ht : (deployLoop md env t).2.1 = .ok () := by
        simpa [deployLoop, hs] using h
      simp [deployLoop, hs, ih ht, List.append_assoc]

/-- C4: in the populated-fleet update loop, when the Update call of a
machine returns an error, a non-immediate strategy aborts the rollout
with that error and touches no later machine (the remaining machines
and the effect trace end at the failing update), while the immediate
strategy continues with the machines after it, and under the immediate
strategy the whole loop always completes without aborting. -/
theorem deployLoop_update_error_strategy (md : MachineDeployment) (env : Env)
    (pre post : List LeasableMachine) (m : LeasableMachine) (e : GoErr)
    (hupd : (m.Update env (resolvedLaunchInput md MachineProcessGroupApp m.machine)).2.1 = .error e)
    (hpre : (deployLoop md env pre).2.1 = .ok ()) :
    (md.strategy ≠ "immediate" →
      deployLoop md env (pre ++ m :: post) =
        ((deployLoop md env pre).1 ++
            (m.Update env (resolvedLaunchInput md MachineProcessGroupApp m.machine)).1 :: post,
          .error e,
          (deployLoop md env pre).2.2 ++
            (m.Update env (resolvedLaunchInput md MachineProcessGroupApp m.machine)).2.2)) ∧
    (md.strategy = "immediate" →
      deployLoop md env (pre ++ m :: post) =
        ((deployLoop md env pre).1 ++
            (m.Update env (resolvedLaunchInput md MachineProcessGroupApp m.machine)).1 ::
              (deployLoop md env post).1,
          (deployLoop md env post).2.1,
          (deployLoop md env pre).2.2 ++
            ((m.Update env (resolvedLaunchInput md MachineProcessGroupApp m.machine)).2.2 ++
              (deployLoop md env post).2.2)) ∧
      (deployLoop md env (pre ++ m :: post)).2.1 = .ok ()) := by
  constructor
  · intro hs
    have hstep : deployStep md env m =
        .inr ((m.Update env (resolvedLaunchInput md MachineProcessGroupApp m.machine)).1, e,
          (m.Update env (resolvedLaunchInput md MachineProcessGroupApp m.machine)).2.2) := by
      unfold deployStep
      dsimp only
      rw [hupd]
      simp [hs]
    rw [deployLoop_append md env (m :: post) pre hpre]
    simp [deployLoop, hstep]
  · intro hs
    have hstep := deployStep_immediate md env m hs
    refine ⟨?_, deployLoop_immediate_ok md env hs (pre ++ m :: post)⟩
    rw [deployLoop_append md env (m :: post) pre hpre]
    simp [deployLoop, hstep]

theorem deployLoop_update_error_strategy_witness :
    ((lmB.Update envC4 (resolvedLaunchInput mdRolling MachineProcessGroupApp lmB.machine)).2.1 =
      .error (.msg "vm 2 update failed")) ∧
    (deployLoop mdRolling envC4 ([lmA] ++ lmB :: [lmC]) =
      ((deployLoop mdRolling envC4 [lmA]).1 ++
          (lmB.Update envC4 (resolvedLaunchInput mdRolling MachineProcessGroupApp lmB.machine)).1 :: [lmC],
        .error (.msg "vm 2 update failed"),
        (deployLoop mdRolling envC4 [lmA]).2.2 ++
          (lmB.Update envC4 (resolvedLaunchInput mdRolling MachineProcessGroupApp lmB.machine)).2.2)) ∧
    ((deployLoop mdImmediate envC4 ([lmA] ++ lmB :: [lmC])).2.1 = .ok ()) ∧
    (Eff.updateCall "mC" "nc" ∈ (deployLoop mdImmediate envC4 ([lmA] ++ lmB :: [lmC])).2.2) ∧
    (Eff.updateCall "mC" "nc" ∉ (deployLoop mdRolling envC4 ([lmA] ++ lmB :: [lmC])).2.2) := by
  refine ⟨by decide,
    (deployLoop_update_error_strategy mdRolling envC4 [lmA] [lmC] lmB
      (.msg "vm 2 update failed") (by decide) (by decide)).1 (by decide),
    ((deployLoop_update_error_strategy mdImmediate envC4 [lmA] [lmC] lmB
      (.msg "vm 2 update failed") (by decide) (by decide)).2 (by decide)).2,
    by decide, by decide⟩

/-- C5 evaluated on the code: with a release command configured,
restart-only off, and no release-command machine in existence,
runReleaseCommand returns success immediately with no API call and no
machine created, because its guard returns early whenever the
release-command machine set is empty; the creation branch (which would
apply the release-command overrides) is unreachable from it. -/
theorem runReleaseCommand_absent_machine_no_create :
    md5.releaseCommand = "bin/migrate" ∧ md5.restartOnly = false ∧
    md5.releaseCommandMachine = [] ∧
    runReleaseCommand md5 baseEnv = (.ok md5, []) ∧
    (runReleaseCommand md5 baseEnv).2.all (fun e => e.machineId = none) = true := by
  refine ⟨by decide, by decide, by decide, by decide, by decide⟩

/-- C6 evaluated on the code: with an empty app machine set (and no
release command so the release phase is a no-op), DeployMachinesApp
reaches createOneMachine, which resolves the launch input from a nil
original machine and therefore dereferences a nil pointer (a Go
runtime panic) before launching anything; no machine is created, and
the process group passed at that call site is the release-command
group, not the app group. -/
theorem DeployMachinesApp_empty_fleet_panics :
    md6.machineSet = [] ∧
    DeployMachinesApp md6 baseEnv = (.panicked, []) ∧
    createOneMachine md6 baseEnv = (.panicked, []) ∧
    resolveUpdatedMachineConfig md6 MachineProcessGroupReleaseCommand none = none ∧
    MachineProcessGroupReleaseCommand ≠ MachineProcessGroupApp := by
  refine ⟨by decide, by decide, by decide, by decide, by decide⟩

theorem EffsWithin_append {ids : List String} {a b : List Eff}
    (ha : EffsWithin ids a) (hb : EffsWithin ids b) : EffsWithin ids (a ++ b) := by
  intro eff h
  rcases List.mem_append.mp h with h | h
  · exact ha eff h
  · exact hb eff h

theorem EffsWithin_mono {ids ids' : List String} (hsub : ∀ i ∈ ids, i ∈ ids')
    {effs : List Eff} (h : EffsWithin ids effs) : EffsWithin ids' effs := by
  intro eff he
  rcases h eff he with hn | ⟨i, hi, hm⟩
  · exact Or.inl hn
  · exact Or.inr ⟨i, hsub i hi, hm⟩

theorem EffsWithin_nil (ids : List String) : EffsWithin ids [] := by
  intro eff h
  simp at h

theorem Update_effs (env : Env) (lm : LeasableMachine) (input : LaunchMachineInput) :
    EffsWithin [lm.machine.id] (lm.Update env input).2.2 := by
  intro eff h
  unfold LeasableMachine.Update at h
  split at h
  · simp at h
  · split at h <;> simp at h <;> subst h <;>
      exact Or.inr ⟨lm.machine.id, by simp, rfl⟩

theorem AcquireLease_effs (env : Env) (d : Int) (lm : LeasableMachine) :
    EffsWithin [lm.machine.id] (lm.AcquireLease env d).2.2 := by
  intro eff h
  unfold LeasableMachine.AcquireLease at h
  split at h
  · simp at h
  · dsimp only at h
    split at h
    · simp at h
      subst h
      exact Or.inr ⟨lm.machine.id, by simp, rfl⟩
    · split at h
      · simp at h
        subst h
        exact Or.inr ⟨lm.machine.id, by simp, rfl⟩
      · split at h <;> simp at h <;> subst h <;>
          exact Or.inr ⟨lm.machine.id, by simp, rfl⟩

theorem ReleaseLease_effs (env : Env) (lm : LeasableMachine) :
    EffsWithin [lm.machine.id] (lm.ReleaseLease env).2.2 := by
  intro eff h
  unfold LeasableMachine.ReleaseLease at h
  split at h
  · simp at h
  · split at h
    · simp at h
    · split at h <;> simp at h <;> subst h <;>
        exact Or.inr ⟨lm.machine.id, by simp, rfl⟩

theorem AcquireLease_machine (env : Env) (d : Int) (lm : LeasableMachine) :
    ((lm.AcquireLease env d).1).machine = lm.machine := by
  unfold LeasableMachine.AcquireLease
  split
  · rfl
  · dsimp only
    split
    · rfl
    · split
      · rfl
      · split <;> rfl

theorem ReleaseLease_machine (env : Env) (lm : LeasableMachine) :
    ((lm.ReleaseLease env).1).machine = lm.machine := by
  rw [ReleaseLease_fst]
  rfl

theorem waitLoop_effs (waitT : Nat → Except GoErr Unit) (cfg : BackoffCfg)
    (mid desired : String) :
    ∀ fuel k, EffsWithin [mid] (waitLoop waitT cfg mid desired fuel k).2 := by
  intro fuel
  induction fuel with
  | zero =>
    intro k eff h
    simp [waitLoop] at h
  | succ f ih =>
    intro k eff h
    unfold waitLoop at h
    rcases hg : waitT k with e | u <;> rw [hg] at h
    · cases h1 : e.is GoErr.canceled with
      | true =>
        simp [h1] at h
        subst h
        exact Or.inr ⟨mid, by simp, rfl⟩
      | false =>
        cases h2 : e.is GoErr.deadlineExceeded with
        | true =>
          simp [h1, h2] at h
          subst h
          exact Or.inr ⟨mid, by simp, rfl⟩
        | false =>
          dsimp only at h
          rw [if_neg (by simp [h1]), if_neg (by simp [h2])] at h
          rcases List.mem_cons.mp h with h0 | h3
          · subst h0
            exact Or.inr ⟨mid, by simp, rfl⟩
          · rcases List.mem_cons.mp h3 with h0 | h4
            · subst h0
              exact Or.inl rfl
            · exact ih (k + 1) eff h4
    · simp at h
      subst h
      exact Or.inr ⟨mid, by simp, rfl⟩

theorem eventLoop_effs (getT : Nat → Except GoErr Machine) (cfg : BackoffCfg)
    (mid t1 t2 : String) :
    ∀ fuel k, EffsWithin [mid] (eventLoop getT cfg mid t1 t2 fuel k).2 := by
  intro fuel
  induction fuel with
  | zero =>
    intro k eff h
    simp [eventLoop] at h
  | succ f ih =>
    intro k eff h
    unfold eventLoop at h
    rcases hg : getT k with e | m <;> rw [hg] at h
    · cases h1 : e.is GoErr.canceled with
      | true =>
        simp [h1] at h
        subst h
        exact Or.inr ⟨mid, by simp, rfl⟩
      | false =>
        cases h2 : e.is GoErr.deadlineExceeded with
        | true =>
          simp [h1, h2] at h
          subst h
          exact Or.inr ⟨mid, by simp, rfl⟩
        | false =>
          simp [h1, h2] at h
          subst h
          exact Or.inr ⟨mid, by simp, rfl⟩
    · dsimp only at h
      rcases hev : m.GetLatestEventOfTypeAfterType t1 t2 with _ | ev <;> rw [hev] at h
      · dsimp only at h
        rcases List.mem_cons.mp h with h0 | h3
        · subst h0
          exact Or.inr ⟨mid, by simp, rfl⟩
        · rcases List.mem_cons.mp h3 with h0 | h4
          · subst h0
            exact Or.inl rfl
          · exact ih (k + 1) eff h4
      · simp at h
        subst h
        exact Or.inr ⟨mid, by simp, rfl⟩

theorem WaitForState_effs (env : Env) (lm : LeasableMachine) (d : String) :
    EffsWithin [lm.machine.id] (lm.WaitForState env d).2 :=
  waitLoop_effs (env.waitApi lm.machine.id d) waitStateBackoff lm.machine.id d env.fuel 0

theorem WaitForEvent_effs (env : Env) (lm : LeasableMachine) (t1 t2 : String) :
    EffsWithin [lm.machine.id] (lm.WaitForEventTypeAfterType env t1 t2).2 :=
  eventLoop_effs (env.get lm.machine.id) waitStateBackoff lm.machine.id t1 t2 env.fuel 0

theorem mem_foldr_append {α : Type} (g : α → List Eff) (eff : Eff) :
    ∀ l : List α, (eff ∈ l.foldr (fun r acc => g r ++ acc) []) ↔ ∃ r ∈ l, eff ∈ g r := by
  intro l
  induction l with
  | nil => simp
  | cons a t ih => simp [List.mem_append, ih]

theorem ReleaseLeases_sndsnd (env : Env) (c : Bool) (ms : List LeasableMachine) :
    (ReleaseLeases env c ms).2.2 =
      (ms.map (fun m => m.ReleaseLease env)).foldr (fun r acc => r.2.2 ++ acc) [] := by
  unfold ReleaseLeases
  dsimp only
  split <;> rfl

theorem ReleaseLeases_effs (env : Env) (c : Bool) (ms : List LeasableMachine) :
    EffsWithin (ms.map (fun m => m.machine.id)) (ReleaseLeases env c ms).2.2 := by
  intro eff h
  rw [ReleaseLeases_sndsnd, mem_foldr_append] at h
  obtain ⟨r, hr, he⟩ := h
  obtain ⟨m, hm, rfl⟩ := List.mem_map.mp hr
  rcases ReleaseLease_effs env m eff he with hnone | ⟨i, hi, hmi⟩
  · exact Or.inl hnone
  · simp at hi
    subst hi
    exact Or.inr ⟨m.machine.id, List.mem_map.mpr ⟨m, hm, rfl⟩, hmi⟩

theorem ReleaseLeases_ids (env : Env) (c : Bool) (ms : List LeasableMachine) :
    (ReleaseLeases env c ms).1.map (fun r => r.machine.id) =
      ms.map (fun r => r.machine.id) := by
  rw [ReleaseLeases_fst]
  rw [List.map_map]
  apply List.map_congr_left
  intro m _
  simp [Function.comp, ReleaseLease_machine]

theorem acquire_results_effs (env : Env) (d : Int) (ms : List LeasableMachine) :
    EffsWithin (ms.map (fun m => m.machine.id))
      ((ms.map (fun m => m.AcquireLease env d)).foldr (fun r acc => r.2.2 ++ acc) []) := by
  intro eff h
  rw [mem_foldr_append] at h
  obtain ⟨r, hr, he⟩ := h
  obtain ⟨m, hm, rfl⟩ := List.mem_map.mp hr
  rcases AcquireLease_effs env d m eff he with hnone | ⟨i, hi, hmi⟩
  · exact Or.inl hnone
  · simp at hi
    subst hi
    exact Or.inr ⟨m.machine.id, List.mem_map.mpr ⟨m, hm, rfl⟩, hmi⟩

theorem acquired_ids (env : Env) (d : Int) (ms : List LeasableMachine) :
    ((ms.map (fun m => m.AcquireLease env d)).map (fun r => r.1)).map
        (fun r => r.machine.id) =
      ms.map (fun r => r.machine.id) := by
  rw [List.map_map, List.map_map]
  apply List.map_congr_left
  intro m _
  simp [Function.comp, AcquireLease_machine]

theorem AcquireLeases_effs (env : Env) (d : Int) (ms : List LeasableMachine) :
    EffsWithin (ms.map (fun m => m.machine.id)) (AcquireLeases env d ms).2.2 := by
  intro eff h
  unfold AcquireLeases at h
  dsimp only at h
  split at h
  · rcases List.mem_append.mp h with h1 | h2
    · exact acquire_results_effs env d ms eff h1
    · have h3 := ReleaseLeases_effs env false
        ((ms.map (fun m => m.AcquireLease env d)).map (fun r => r.1)) eff h2
      rw [acquired_ids] at h3
      exact h3
  · exact acquire_results_effs env d ms eff h

theorem AcquireLeases_fst_ok (env : Env) (d : Int) (ms : List LeasableMachine)
    (h : (AcquireLeases env d ms).2.1 = .ok ()) :
    (AcquireLeases env d ms).1 = ms.map (fun m => (m.AcquireLease env d).1) := by
  unfold AcquireLeases at h ⊢
  dsimp only at h ⊢
  by_cases hE : ((ms.map (fun m => m.AcquireLease env d)).any (fun r => isErr r.2.1)) = true
  · rw [if_pos hE] at h
    exact absurd h (by simp)
  · rw [if_neg hE]
    rw [List.map_map]
    rfl

theorem createRelease_snd (md : MachineDeployment) (env : Env) :
    (createReleaseCommandMachine md env).2 = [] := by
  unfold createReleaseCommandMachine
  split
  · rfl
  · rfl

theorem updateRelease_ok_effs (md : MachineDeployment) (env : Env)
    (md1 : MachineDeployment) (effs : List Eff)
    (h : updateReleaseCommandMachine md env = (.ok md1, effs)) :
    EffsWithin (md.releaseCommandMachine.map (fun r => r.machine.id) ++
      md1.releaseCommandMachine.map (fun r => r.machine.id)) effs := by
  unfold updateReleaseCommandMachine at h
  by_cases hcmd : md.releaseCommand = ""
  · rw [if_pos hcmd] at h
    have he : effs = [] := (congrArg Prod.snd h).symm
    subst he
    exact EffsWithin_nil _
  · rw [if_neg hcmd] at h
    rcases hrc : md.releaseCommandMachine with _ | ⟨rcm, rrest⟩ <;> rw [hrc] at h
    · exact absurd (congrArg Prod.fst h) (by simp)
    · dsimp only at h
      rcases hw : (rcm.WaitForState env MachineStateStopped).1 with e | u1 <;> rw [hw] at h
      · exact absurd (congrArg Prod.fst h) (by simp)
      · dsimp only at h
        rcases ha : (AcquireLeases env md.leaseTimeout (rcm :: rrest)).2.1 with e | u2 <;>
          rw [ha] at h
        · exact absurd (congrArg Prod.fst h) (by simp)
        · dsimp only at h
          rcases hal : (AcquireLeases env md.leaseTimeout (rcm :: rrest)).1 with _ | ⟨rcm1, rrest1⟩ <;>
            rw [hal] at h
          · exact absurd (congrArg Prod.fst h) (by simp)
          · dsimp only at h
            rcases hu : (rcm1.Update env (configureLaunchInputForReleaseCommand md
                (resolvedLaunchInput md MachineProcessGroupReleaseCommand rcm.machine))).2.1
              with e | u3 <;> rw [hu] at h
            · exact absurd (congrArg Prod.fst h) (by simp)
            · dsimp only at h
              have hmd1 : md1 = { md with releaseCommandMachine :=
                  (ReleaseLeases env false
                    ((rcm1.Update env (configureLaunchInputForReleaseCommand md
                      (resolvedLaunchInput md MachineProcessGroupReleaseCommand rcm.machine))).1 ::
                        rrest1)).1 } := by
                have h1 := congrArg Prod.fst h
                simp only [Prod.fst] at h1
                cases h1
                rfl
              have heff : effs = (rcm.WaitForState env MachineStateStopped).2 ++
                  (AcquireLeases env md.leaseTimeout (rcm :: rrest)).2.2 ++
                  (rcm1.Update env (configureLaunchInputForReleaseCommand md
                    (resolvedLaunchInput md MachineProcessGroupReleaseCommand rcm.machine))).2.2 ++
                  (ReleaseLeases env false
                    ((rcm1.Update env (configureLaunchInputForReleaseCommand md
                      (resolvedLaunchInput md MachineProcessGroupReleaseCommand rcm.machine))).1 ::
                        rrest1)).2.2 := (congrArg Prod.snd h).symm
              subst hmd1
              subst heff
              dsimp only
              have hrcm1 : rcm1.machine.id = rcm.machine.id := by
                have hmap := AcquireLeases_fst_ok env md.leaseTimeout (rcm :: rrest)
                  (by rw [ha])
                rw [hal] at hmap
                simp only [List.map_cons] at hmap
                have h1 := (List.cons.inj hmap).1
                rw [h1, AcquireLease_machine]
              have hsubL : ∀ i ∈ (rcm :: rrest).map (fun r => r.machine.id),
                  i ∈ (rcm :: rrest).map (fun r => r.machine.id) ++
                    (ReleaseLeases env false
                      ((rcm1.Update env (configureLaunchInputForReleaseCommand md
                        (resolvedLaunchInput md MachineProcessGroupReleaseCommand rcm.machine))).1 ::
                          rrest1)).1.map (fun r => r.machine.id) := by
                intro i hi
                exact List.mem_append.mpr (Or.inl hi)
              refine EffsWithin_append (EffsWithin_append (EffsWithin_append ?_ ?_) ?_) ?_
              · refine EffsWithin_mono ?_ (WaitForState_effs env rcm MachineStateStopped)
                intro i hi
                simp only [List.mem_singleton] at hi
                subst hi
                exact hsubL rcm.machine.id (by simp)
              · exact EffsWithin_mono hsubL
                  (AcquireLeases_effs env md.leaseTimeout (rcm :: rrest))
              · refine EffsWithin_mono ?_ (Update_effs env rcm1 _)
                intro i hi
                simp only [List.mem_singleton] at hi
                subst hi
                rw [hrcm1]
                exact hsubL rcm.machine.id (by simp)
              · refine EffsWithin_mono ?_ (ReleaseLeases_effs env false _)
                intro i hi
                refine List.mem_append.mpr (Or.inr ?_)
                rw [ReleaseLeases_ids]
                exact hi

theorem createOrUpdate_ok_effs (md : MachineDeployment) (env : Env)
    (md1 : MachineDeployment) (effs : List Eff)
    (h : createOrUpdateReleaseCmdMachine md env = (.ok md1, effs)) :
    EffsWithin (md.releaseCommandMachine.map (fun r => r.machine.id) ++
      md1.releaseCommandMachine.map (fun r => r.machine.id)) effs := by
  unfold createOrUpdateReleaseCmdMachine at h
  split at h
  · have he : effs = [] := by
      have h2 := congrArg Prod.snd h
      rw [createRelease_snd] at h2
      exact h2.symm
    subst he
    exact EffsWithin_nil _
  · exact updateRelease_ok_effs md env md1 effs h

/-- C1: when the configured release command is run (command set, a
release-command machine present, restart-only off) and its one-shot
run exits with a non-zero code, DeployMachinesApp returns an error and
its entire effect trace is the release-phase trace: given the
data-model invariant that the release-command machine is never a
member of the app MachineSet, no Update call is issued on any app
machine and no lease is acquired on the app MachineSet. -/
theorem releaseCommand_gating (md : MachineDeployment) (env : Env)
    (md1 : MachineDeployment) (rcm : LeasableMachine) (rrest : List LeasableMachine)
    (effs0 effs1 effs2 effs3 : List Eff) (ev : MachineEvent) (code : Int)
    (h1 : md.releaseCommand ≠ "")
    (h2 : md.releaseCommandMachine ≠ [])
    (h3 : md.restartOnly = false)
    (hco : createOrUpdateReleaseCmdMachine md env = (.ok md1, effs0))
    (hrcm : md1.releaseCommandMachine = rcm :: rrest)
    (hw1 : rcm.WaitForState env MachineStateStarted = (.ok (), effs1))
    (hw2 : rcm.WaitForState env MachineStateStopped = (.ok (), effs2))
    (hw3 : rcm.WaitForEventTypeAfterType env "exit" "start" = (.ok ev, effs3))
    (hec : ev.GetExitCode = .ok code)
    (hcode : code ≠ 0)
    (hd0 : ∀ r ∈ md.releaseCommandMachine, ∀ m ∈ md.machineSet, r.machine.id ≠ m.machine.id)
    (hd1 : ∀ r ∈ md1.releaseCommandMachine, ∀ m ∈ md.machineSet, r.machine.id ≠ m.machine.id) :
    DeployMachinesApp md env =
      (.err (.wrap "release command failed - aborting deployment"
        (.msg ("error release_command machine " ++ rcm.machine.id ++ " exited with non-zero status"))),
        effs0 ++ effs1 ++ effs2 ++ effs3) ∧
    ∀ eff ∈ effs0 ++ effs1 ++ effs2 ++ effs3, ∀ m ∈ md.machineSet,
      eff.machineId ≠ some m.machine.id := by
  have hguard : ¬(md.releaseCommand = "" ∨ md.releaseCommandMachine = [] ∨ md.restartOnly = true) := by
    simp [h1, h2, h3]
  have hrun : runReleaseCommand md env =
      (.err (.msg ("error release_command machine " ++ rcm.machine.id ++ " exited with non-zero status")),
        effs0 ++ effs1 ++ effs2 ++ effs3) := by
    unfold runReleaseCommand
    rw [if_neg hguard]
    dsimp only
    rw [hco]
    dsimp only
    rw [hrcm]
    dsimp only
    rw [hw1]
    dsimp only
    rw [hw2]
    dsimp only
    rw [hw3]
    dsimp only
    rw [hec]
    dsimp only
    rw [if_pos hcode]
  have hdep : DeployMachinesApp md env =
      (.err (.wrap "release command failed - aborting deployment"
        (.msg ("error release_command machine " ++ rcm.machine.id ++ " exited with non-zero status"))),
        effs0 ++ effs1 ++ effs2 ++ effs3) := by
    unfold DeployMachinesApp
    rw [hrun]
  refine ⟨hdep, ?_⟩
  have hrcmem : rcm ∈ md1.releaseCommandMachine := by
    rw [hrcm]
    exact List.mem_cons_self _ _
  have hW0 := createOrUpdate_ok_effs md env md1 effs0 hco
  have hW1 : EffsWithin [rcm.machine.id] effs1 := by
    have h := WaitForState_effs env rcm MachineStateStarted
    rw [hw1] at h
    exact h
  have hW2 : EffsWithin [rcm.machine.id] effs2 := by
    have h := WaitForState_effs env rcm MachineStateStopped
    rw [hw2] at h
    exact h
  have hW3 : EffsWithin [rcm.machine.id] effs3 := by
    have h := WaitForEvent_effs env rcm "exit" "start"
    rw [hw3] at h
    exact h
  have hsingle : ∀ effsX : List Eff, EffsWithin [rcm.machine.id] effsX →
      ∀ eff ∈ effsX, ∀ m ∈ md.machineSet, eff.machineId ≠ some m.machine.id := by
    intro effsX hWX eff heX m hm
    rcases hWX eff heX with hn | ⟨i, hi, hmi⟩
    · rw [hn]
      simp
    · simp only [List.mem_singleton] at hi
      subst hi
      rw [hmi]
      intro hq
      exact hd1 rcm hrcmem m hm (Option.some.inj hq)
  intro eff he m hm
  rcases List.mem_append.mp he with he' | he3
  · rcases List.mem_append.mp he' with he'' | he2
    · rcases List.mem_append.mp he'' with he0 | he1
      · rcases hW0 eff he0 with hn | ⟨i, hi, hmi⟩
        · rw [hn]
          simp
        · rw [hmi]
          intro hq
          have hiq := Option.some.inj hq
          subst hiq
          rcases List.mem_append.mp hi with hiL | hiR
          · obtain ⟨r, hr, hrid⟩ := List.mem_map.mp hiL
            exact hd0 r hr m hm hrid
          · obtain ⟨r, hr, hrid⟩ := List.mem_map.mp hiR
            exact hd1 r hr m hm hrid
      · exact hsingle effs1 hW1 eff he1 m hm
    · exact hsingle effs2 hW2 eff he2 m hm
  · exact hsingle effs3 hW3 eff he3 m hm

theorem releaseCommand_gating_witness :
    DeployMachinesApp mdC1 envC1 =
      (.err (.wrap "release command failed - aborting deployment"
        (.msg "error release_command machine rc1 exited with non-zero status")),
        [.waitCall "rc1" "stopped", .acquireLeaseCall "rc1" 1800, .updateCall "rc1" "rcn",
         .releaseLeaseCall "rc1" "rcn", .waitCall "rc1" "started", .waitCall "rc1" "stopped",
         .getCall "rc1"]) ∧
    Eff.updateCall "mA" "na" ∉ (DeployMachinesApp mdC1 envC1).2 ∧
    Eff.acquireLeaseCall "mA" 1800 ∉ (DeployMachinesApp mdC1 envC1).2 := by
  have h := releaseCommand_gating mdC1 envC1 mdC1 lmRC [] effs0Ex
    [.waitCall "rc1" "started"] [.waitCall "rc1" "stopped"] [.getCall "rc1"] ev7 7
    (by decide) (by decide) (by decide) (by decide) (by decide) (by decide) (by decide)
    (by decide) (by decide) (by decide) (by decide) (by decide)
  refine ⟨?_, by decide, by decide⟩
  rw [h.1]
  decide
